import Mathlib

/-!
# Verification of the three-people-mahjong rule engine

Shallow embedding of the JavaScript sources of the `three-people-mahjong`
repository (a three-seat mahjong rule/scoring engine) and proofs about them.

Embedded modules:
* `src/js/core/Tile.js`    — tile value object (suit, rank, red flag, unique id);
* `src/js/core/Wall.js`    — `Wall.build` tile-set generation;
* `src/js/config.js`       — `GameConfig.redRules` red-bonus configuration;
* `src/js/logic/Judge.js`  — `findWinningForms` / `_findMentsu` winning-form
  search, `isChiitoitsu`, `isPermanentFuriten`, `findAllWaitTiles`;
* the `Scorer` part of `src/js/logic/Judge.js` — `calculateFu` and
  `lookupScore` with the literal `SCORE_CHILD_MAP` / `LIMIT_CHILD_MAP` data;
* `src/js/core/GameState.js` — `initPlayers`, `startCallPhase`, `canRon`,
  `advanceRound`;
* `src/js/logic/Cycler.js` — `handleRoundEnd`, `_advanceRound`.

Tile codes.  The JavaScript code keys every per-kind computation by the
string `toNormalCode()` (`"1m"`, `"5p"`, `"z3"`, …) and sorts hands by
`code.localeCompare` where `code` is the normal code with a trailing `"r"`
appended for a red tile.  All normal codes are two characters long
(digit+suit-letter for numeral suits, `'z'`+digit for honors), no distinct
normal codes are in prefix relation, and the ASCII/lexicographic order on
the codes generated by the program is:

    1m < 1p < 1s < 2m < … < 9s < z1 < … < z7,

with a red code `"5pr"` sorting immediately after its normal `"5p"`.
We embed a normal code as the natural number `value * 4 + suitIndex`
(`m ↦ 0`, `p ↦ 1`, `s ↦ 2`) for a numeral suit and `100 + value` for an
honor, and the full sort key of a tile as `2 * normalCode + redBit`.
On the tiles the program creates (numeral ranks 1–9, honor ranks 1–7) this
embedding is injective on kinds and its `≤` order coincides with
`localeCompare` on the code strings, including the red suffix behaviour.
-/

/-- The four suit letters `'m'`, `'p'`, `'s'`, `'z'` of `config.js` `TILE_TYPE`. -/
inductive Suit where
  | m : Suit
  | p : Suit
  | s : Suit
  | z : Suit
deriving DecidableEq, Repr


/-- Index of a numeral suit letter in lexicographic order `'m' < 'p' < 's'`. -/
def Suit.idx : Suit → Nat
  | .m => 0
  | .p => 1
  | .s => 2
  | .z => 3

/-- From `Tile.js`: a tile holds its type (suit), value, red-bonus flag and a
unique instance id. -/
structure Tile where
  suit : Suit
  value : Nat
  isRed : Bool
  uniqueId : Nat
deriving DecidableEq, Repr

/-- Embeds `Tile.toNormalCode()` — the red-blind kind code of a tile, embedded as a
natural number whose `≤` order matches `localeCompare` on the code strings
(`"1m" ↦ 4`, `"5p" ↦ 21`, `"9s" ↦ 38`, `"z1" ↦ 101`, …). -/
def Tile.toNormalCode (t : Tile) : Nat :=
  if t.suit = Suit.z then 100 + t.value else t.value * 4 + t.suit.idx

/-- Embeds `Tile.generateCode()` — the display code, which appends `'r'` to the
normal code of a red tile; embedded as the sort key `2 * normalCode + redBit`
so that `≤` on keys matches `localeCompare` on code strings. -/
def Tile.fullKey (t : Tile) : Nat :=
  2 * t.toNormalCode + (if t.isRed then 1 else 0)

/-- The (suit, rank) kind of a tile: what the spec calls the kind, i.e. the
tile ignoring `isRed` and `uniqueId`. -/
def Tile.kind (t : Tile) : Suit × Nat := (t.suit, t.value)

/-- A tile the program can actually create: numeral ranks 1–9, honor ranks 1–7
(`Wall.build` only produces these). -/
def Tile.valid (t : Tile) : Prop :=
  if t.suit = Suit.z then 1 ≤ t.value ∧ t.value ≤ 7 else 1 ≤ t.value ∧ t.value ≤ 9

instance (t : Tile) : Decidable t.valid := by
  unfold Tile.valid; infer_instance

/-- Kind code of a kind pair (so `Tile.toNormalCode = codeOfKind ∘ Tile.kind`). -/
def codeOfKind (k : Suit × Nat) : Nat :=
  if k.1 = Suit.z then 100 + k.2 else k.2 * 4 + k.1.idx

/-! ## Scorer: fu rounding (`Scorer.calculateFu`, final step) -/

/-- The final rounding step of `Scorer.calculateFu`:
`if (fu < 30) fu = 30; else fu = Math.ceil(fu / 10) * 10`. -/
def roundFu (fu : Nat) : Nat :=
  if fu < 30 then 30 else ((fu + 9) / 10) * 10

/-- The raw fu total accumulated by `Scorer.calculateFu` before rounding, in
the non-exception path: base 20, plus 10 for a concealed ron
(`winner.naki.length === 0 && isRon`), plus the meld fu and head fu helpers
(`_calculateMentsuFu` and `_calculateAtamaFu`, which as written both return 0),
plus the unconditional wait-shape 2 (`fu += FU_TABLE.MACH`), plus 2 for a
non-pinfu tsumo. -/
def rawFu (nakiLen : Nat) (isRon isPinfu : Bool) : Nat :=
  20 + (if nakiLen = 0 && isRon then 10 else 0) + 0 + 0 + 2
    + (if !isRon && !isPinfu then 2 else 0)

/-- Embeds `Scorer.calculateFu`: the seven-pairs override returns 25, the pinfu-tsumo
override returns 20, otherwise the raw total is rounded by `roundFu`. -/
def calculateFu (nakiLen : Nat) (isRon isPinfu isChiitoitsu : Bool) : Nat :=
  if isChiitoitsu then 25
  else if isPinfu && !isRon then 20
  else roundFu (rawFu nakiLen isRon isPinfu)

/-! ## Scorer: score table lookup (`Scorer.lookupScore`)

`SCORE_PARENT_MAP` and `LIMIT_PARENT_MAP` are referenced by `lookupScore`
but never defined anywhere in the source (the comment `... 親のデータも同様に
定義 ...` stands in for them), so only the child (`isParent = false`) path of
`lookupScore` can be embedded; a dealer lookup would throw a
`ReferenceError` at the first line of the function. -/

/-- The literal `SCORE_CHILD_MAP` data: `SCORE_CHILD_MAP[fu][han]`, `none`
when either index is absent. -/
def scoreChildEntry (fu han : Nat) : Option (List Nat) :=
  match fu, han with
  | 20, 1 => some [300, 500]
  | 20, 2 => some [400, 700]
  | 20, 3 => some [700, 1300]
  | 20, 4 => some [1300, 2600]
  | 25, 2 => some [800, 1600]
  | 25, 3 => some [1600, 3200]
  | 25, 4 => some [3200, 6400]
  | 30, 1 => some [1000, 2000]
  | 30, 2 => some [500, 1000, 2000]
  | 30, 3 => some [1000, 2000, 3900]
  | 30, 4 => some [2000, 3900, 7700]
  | 40, 1 => some [1300, 2600]
  | 40, 2 => some [700, 1300, 2600]
  | 40, 3 => some [1300, 2600, 5200]
  | _, _ => none

/-- Result record of `Scorer.lookupScore`: `{ score, tsumoBase }`. -/
structure ScoreResult where
  score : Nat
  tsumoBase : Nat
deriving DecidableEq, Repr

/-- Embeds `Scorer.lookupScore` for a non-dealer winner (`isParent = false`): below 5
han it consults `SCORE_CHILD_MAP`; on a hit, a ron win takes the last element
of a 3-entry row (else the first), and a self-draw win returns
`{ score: base * 4, tsumoBase: base }` with `base` the first element
(the comment reads `総点 = base * 4 (子3人分 + 親1人分)`).  With no table hit
it falls through the `LIMIT_CHILD_MAP` brackets (`32000/4 = 8000` etc.) and
finally returns `{ score: 0, tsumoBase: 0 }`. -/
def lookupScoreChild (fu han : Nat) (isRon : Bool) : ScoreResult :=
  match (if han ≤ 4 then scoreChildEntry fu han else none) with
  | some arr =>
    if isRon then
      { score := if arr.length = 3 then arr.getD 2 0 else arr.getD 0 0, tsumoBase := 0 }
    else
      { score := arr.getD 0 0 * 4, tsumoBase := arr.getD 0 0 }
  | none =>
    if han ≥ 13 then { score := 32000, tsumoBase := 8000 }
    else if han ≥ 11 then { score := 24000, tsumoBase := 6000 }
    else if han ≥ 8 then { score := 16000, tsumoBase := 4000 }
    else if han ≥ 6 then { score := 12000, tsumoBase := 3000 }
    else if han ≥ 5 then { score := 8000, tsumoBase := 2000 }
    else { score := 0, tsumoBase := 0 }

/-! ## Wall.build and the red-bonus configuration (`config.js`, `Wall.js`)

`GameConfig.redRules` is a plain object with the six own keys
`p3, s3, p5, s5, p7, s7` (suit letter first, then rank).  `Wall.build`
reads `this.config.redRules[tileCode]` where `tileCode` is the
rank-first string `` `${value}${type}` `` (`"5p"`, `"3s"`, …), so the
property access is modelled as a `String`-keyed lookup that can miss.
JavaScript `x || d` treats both `undefined` (missing key) and `0` as falsy,
which `jsOrNat` models. -/

/-- From `config.js`, `GameConfig.redRules`: the six configured red-tile counts. -/
structure RedRules where
  p3 : Nat
  s3 : Nat
  p5 : Nat
  s5 : Nat
  p7 : Nat
  s7 : Nat
deriving DecidableEq, Repr

/-- Property access `redRules[key]` on the object literal of `config.js`:
only the six keys `"p3" … "s7"` are present; any other key yields
`undefined` (`none`). -/
def RedRules.lookup (rr : RedRules) (key : String) : Option Nat :=
  if key = "p3" then some rr.p3
  else if key = "s3" then some rr.s3
  else if key = "p5" then some rr.p5
  else if key = "s5" then some rr.s5
  else if key = "p7" then some rr.p7
  else if key = "s7" then some rr.s7
  else none

/-- JavaScript `x || d` on an optional number: `undefined` and `0` are falsy. -/
def jsOrNat (x : Option Nat) (d : Nat) : Nat :=
  match x with
  | some v => if v = 0 then d else v
  | none => d

/-- The suit letter used in tile code strings. -/
def Suit.letter : Suit → Char
  | .m => 'm'
  | .p => 'p'
  | .s => 's'
  | .z => 'z'

/-- Embeds the lookup key of `Wall.build`, `` tileCode = `${value}${type}` ``, for ranks 1–9:
digit character first, suit letter second. -/
def tileCodeStr (value : Nat) (suit : Suit) : String :=
  String.mk [Char.ofNat (48 + value), suit.letter]

/-- From `config.js`, `EXCLUDED_TILES`: manzu 2–8 are not used in this variant. -/
def EXCLUDED_TILES : List String :=
  ["2m", "3m", "4m", "5m", "6m", "7m", "8m"]

/-- The red-tile count `Wall.build` computes for a numeral kind:
`redRules[tileCode] || 1` for rank 5 of pinzu/souzu, `redRules[tileCode] || 0`
for ranks 3 and 7 of pinzu/souzu, and 0 otherwise. -/
def redCountFor (rr : RedRules) (suit : Suit) (value : Nat) : Nat :=
  if suit = Suit.p ∨ suit = Suit.s then
    if value = 5 then jsOrNat (rr.lookup (tileCodeStr value suit)) 1
    else if value = 3 ∨ value = 7 then jsOrNat (rr.lookup (tileCodeStr value suit)) 0
    else 0
  else 0

/-- The tiles `Wall.build` pushes for one numeral kind: `4 - redCount` normal
tiles then `redCount` red tiles, with consecutive unique ids from `uidStart`. -/
def kindTiles (suit : Suit) (value : Nat) (rc : Nat) (uidStart : Nat) : List Tile :=
  (List.range (4 - rc)).map (fun i => ⟨suit, value, false, uidStart + i⟩)
    ++ (List.range rc).map (fun i => ⟨suit, value, true, uidStart + (4 - rc) + i⟩)

namespace Wall

/-- The `(type, value)` pairs visited by the numeral-suit loops of
`Wall.build`, in program order: suits `m`, `p`, `s`, ranks 1–9 each. -/
def numeralKinds : List (Suit × Nat) :=
  [Suit.m, Suit.p, Suit.s].flatMap fun su => ((List.range 9).map (· + 1)).map fun v => (su, v)

/-- One numeral-loop iteration of `Wall.build`: skip an excluded kind,
otherwise append the kind's tiles (the running unique-id counter equals the
number of tiles pushed so far, i.e. `acc.length`). -/
def buildStep (rr : RedRules) (acc : List Tile) (k : Suit × Nat) : List Tile :=
  if EXCLUDED_TILES.contains (tileCodeStr k.2 k.1) then acc
  else acc ++ kindTiles k.1 k.2 (redCountFor rr k.1 k.2) acc.length

/-- Embeds `Wall.build`: numeral suits `m`, `p`, `s` ranks 1–9 minus the excluded
manzu 2–8, with per-kind red substitution, followed by four copies of each of
the seven honors. -/
def build (rr : RedRules) : List Tile :=
  let numerals := numeralKinds.foldl (buildStep rr) []
  ((List.range 7).map (· + 1)).foldl
    (fun acc v => acc ++ (List.range 4).map fun i => ⟨Suit.z, v, false, acc.length + i⟩)
    numerals

end Wall

/-- The default red rules of `GameConfig`: one red five in pinzu and souzu,
nothing else. -/
def defaultRedRules : RedRules := ⟨0, 0, 1, 1, 0, 0⟩

/-! ## GameState.startCallPhase ron resolution (`GameState.js`) -/

/-- Embeds `GameState.canRon` (lines 205–208): the shipped predicate is a stub that
returns `false` for every player and tile (`// (省略) ...`). -/
def gsCanRon (_player : Nat) (_tile : Tile) : Bool := false

/-- The ron-candidate computation of `GameState.startCallPhase`:
`this.players.filter(p => p !== sourcePlayer && this.canRon(p, discardedTile))`.
Seats are identified by index; the ron predicate (`this.canRon` applied to the
discarded tile) is a parameter. -/
def ronCandidates (canRonP : Nat → Bool) (players : List Nat) (src : Nat) : List Nat :=
  players.filter (fun q => q != src && canRonP q)

/-- The set of seats whose ron claim `startCallPhase` actually commits: if the
candidate list is nonempty it takes `ronCandidates[0]` (`// 簡易的に1人目`) as
the single winning player and returns. -/
def callPhaseRonWinners (canRonP : Nat → Bool) (players : List Nat) (src : Nat) : List Nat :=
  match ronCandidates canRonP players src with
  | [] => []
  | w :: _ => [w]

/-! ## Furiten (`Judge.isPermanentFuriten`, `Judge.findAllWaitTiles`) -/

/-- One pass over a list remembering the elements already seen: the key
order of a JavaScript `Map`/`Set` filled by iterating the list. -/
def firstOccsAux {α : Type} [DecidableEq α] : List α → List α → List α
  | [], _ => []
  | a :: l, seen =>
    if a ∈ seen then firstOccsAux l seen else a :: firstOccsAux l (a :: seen)

/-- Distinct elements of a list in order of first occurrence (the key order
of a JavaScript `Map`/`Set` filled by one pass over the list). -/
def firstOccs {α : Type} [DecidableEq α] (l : List α) : List α :=
  firstOccsAux l []

/-- Embeds `Judge.findAllWaitTiles` — the shipped implementation is the documented
stand-in (`// 簡易実装として、一旦、手牌の牌種を返す (ダミー)`): it returns the
distinct normal codes of the 14-tile hand, ignoring the melds argument. -/
def findAllWaitTiles (hand : List Tile) : List Nat :=
  firstOccs (hand.map Tile.toNormalCode)

/-- The `Player` fields consulted by `Judge.isPermanentFuriten`:
`player.isRiichi` and `player.discardCodes` (the normal codes the player has
discarded, appended to by `Player.discardTile` and never removed within a
round). -/
structure FuritenPlayer where
  isRiichi : Bool
  discardCodes : List Nat
deriving DecidableEq, Repr

/-- Embeds `Judge.isPermanentFuriten`: a non-riichi player is never permanently
furiten; otherwise the player is furiten iff some wait code of the current
14-tile winning hand occurs in the player's own discard history. -/
def isPermanentFuriten (p : FuritenPlayer) (finalHand : List Tile) : Bool :=
  if !p.isRiichi then false
  else (findAllWaitTiles finalHand).any (fun c => p.discardCodes.contains c)

/-! ## Round cycle (`Cycler.js`, `GameState.js`)

Seat winds are modelled by their index into `WINDS = ['東', '南', '西', '北']`.
The prevailing wind only ever takes the values `'東'` and `'南'`. -/

/-- The prevailing wind (`baKaze`): first wind (east) or second wind (south). -/
inductive BaKaze where
  | east : BaKaze
  | south : BaKaze
deriving DecidableEq, Repr

/-- The `Player` fields involved in seat rotation: the identity of the player
object, `isParent` and `seatWind` (as an index into `WINDS`). -/
structure SeatPlayer where
  pid : Nat
  isParent : Bool
  seatWind : Nat
deriving DecidableEq, Repr

/-- The rotation performed by both `Cycler._advanceRound` and
`GameState.advanceRound`: shift the old dealer off the front, clear its
`isParent`, push it to the back, and set `isParent` on the new front player. -/
def rotateParents (ps : List SeatPlayer) : List SeatPlayer :=
  match ps with
  | [] => []
  | old :: rest =>
    match rest ++ [{ old with isParent := false }] with
    | [] => []
    | h :: t => { h with isParent := true } :: t

/-- Embeds `players.forEach((p, index) => p.setWind(WINDS[index % 3]))`, unrolled
with an explicit running index. -/
def setWindsFrom (i : Nat) : List SeatPlayer → List SeatPlayer
  | [] => []
  | p :: t => { p with seatWind := i % 3 } :: setWindsFrom (i + 1) t

/-- Embeds `players.forEach((p, index) => p.setWind(WINDS[index % 3]))`. -/
def setWinds (ps : List SeatPlayer) : List SeatPlayer :=
  setWindsFrom 0 ps

/-- The `Cycler` state: player array, current round number, prevailing wind,
bonus counter (`honba`), and the game-over flag that `_advanceRound` assigns
(`this.isGameOver = true`). -/
structure CyclerState where
  players : List SeatPlayer
  currentRound : Nat
  baKaze : BaKaze
  currentHonba : Nat
  gameOverFlag : Bool
deriving DecidableEq, Repr

/-- Embeds `Cycler._advanceRound`: increment the round; past round 4 either flip the
prevailing wind east→south (resetting the round to 1) or — in the south —
set the game-over flag and return *before* the seat rotation; otherwise
rotate the seats and refresh the seat winds. -/
def cyclerAdvanceRound (s : CyclerState) : CyclerState :=
  let r := s.currentRound + 1
  if r > 4 then
    match s.baKaze with
    | .east =>
      { s with currentRound := 1, baKaze := BaKaze.south,
               players := setWinds (rotateParents s.players) }
    | .south => { s with currentRound := r, gameOverFlag := true }
  else
    { s with currentRound := r, players := setWinds (rotateParents s.players) }

/-- Embeds `Cycler.handleRoundEnd`: the dealer repeats (`parentRenchan`) iff the
dealer won or was ready at the exhaustive draw; then either only the bonus
counter is incremented, or it is reset and `_advanceRound` runs. -/
def handleRoundEnd (s : CyclerState) (isParentAgari isTempaiAtRyukyoku : Bool) : CyclerState :=
  if isParentAgari || isTempaiAtRyukyoku then
    { s with currentHonba := s.currentHonba + 1 }
  else
    cyclerAdvanceRound { s with currentHonba := 0 }

/-- The `GameState` fields touched by `advanceRound`: players, round, honba,
prevailing wind, the game-over flag, and whether `config.length === 'south'`. -/
structure GameStateRec where
  players : List SeatPlayer
  round : Nat
  honba : Nat
  baKaze : BaKaze
  isGameOver : Bool
  cfgLengthSouth : Bool
deriving DecidableEq, Repr

/-- The final check of `GameState.advanceRound`:
`if (this.baKaze === '南' && this.round > 4 && this.config.length === 'south')`
sets the game-over flag. -/
def gsCheckGameOver (g : GameStateRec) : GameStateRec :=
  if g.baKaze = BaKaze.south ∧ g.round > 4 ∧ g.cfgLengthSouth = true then
    { g with isGameOver := true }
  else g

/-- Embeds `GameState.advanceRound`: on a dealer repeat only `honba` is incremented;
otherwise `honba` resets, the round advances, the seats rotate (always —
this version has no early return), the seat winds refresh, and past round 4
the prevailing wind is set to south with the round reset to 1. -/
def gsAdvanceRound (g : GameStateRec) (isParentRenchan : Bool) : GameStateRec :=
  if isParentRenchan then
    gsCheckGameOver { g with honba := g.honba + 1 }
  else
    let g1 := { g with honba := 0, round := g.round + 1,
                       players := setWinds (rotateParents g.players) }
    gsCheckGameOver
      (if g1.round > 4 then { g1 with baKaze := BaKaze.south, round := 1 } else g1)

/-- Embeds `GameState.initPlayers`: three players `p0`, `p1`, `p2` with seat winds
east, south, west (indices 0, 1, 2) and `isParent` set on `players[0]`. -/
def gsInitPlayers : List SeatPlayer :=
  match setWinds [⟨0, false, 0⟩, ⟨1, false, 0⟩, ⟨2, false, 0⟩] with
  | [] => []
  | h :: t => { h with isParent := true } :: t

/-- Exactly one player of the list is flagged as the dealer. -/
def exactlyOneParent (ps : List SeatPlayer) : Prop :=
  (ps.filter fun p => p.isParent).length = 1

instance (ps : List SeatPlayer) : Decidable (exactlyOneParent ps) := by
  unfold exactlyOneParent; infer_instance

/-- The seat invariant maintained by the round cycle: three players, the
front player is the dealer, and no other player is flagged as dealer. -/
def seatInv (ps : List SeatPlayer) : Prop :=
  ps.length = 3 ∧ (ps.head?.map fun p => p.isParent) = some true ∧ exactlyOneParent ps

instance (ps : List SeatPlayer) : Decidable (seatInv ps) := by
  unfold seatInv; infer_instance

/-! ## Judge: winning-form search (`findWinningForms`, `_findMentsu`)

`findWinningForms` sorts the hand by `code.localeCompare` (a stable sort with
respect to the full code; equal full codes differ only in `uniqueId` and are
interchangeable downstream), fills a `Map` from `toNormalCode` to counts by
one pass over the sorted hand — so the `Map`'s key order is the order of
first occurrence in the sorted hand — and backtracks over that ordered
count table.  The embedding represents the ordered `Map` as an association
list `List (Nat × Nat)` in key-insertion order. -/

/-- The comparison `(a, b) => a.code.localeCompare(b.code)` used by
`findWinningForms`' sort, as a relation: order by the full sort key. -/
def tileLe (a b : Tile) : Prop := a.fullKey ≤ b.fullKey

instance : DecidableRel tileLe := fun a b => Nat.decLe a.fullKey b.fullKey

instance : IsTotal Tile tileLe := ⟨fun a b => Nat.le_total a.fullKey b.fullKey⟩

instance : IsTrans Tile tileLe := ⟨fun _ _ _ hab hbc => Nat.le_trans hab hbc⟩

/-- Embeds `const sortedHand = [...hand].sort((a, b) => a.code.localeCompare(b.code))`
(insertion sort is stable, like the engine's sort). -/
def sortedHand (hand : List Tile) : List Tile :=
  List.insertionSort tileLe hand

/-- The normal codes of the sorted hand, in order: the sequence of `Map` key
accesses performed while `findWinningForms` fills `tileCounts`. -/
def codesOfHand (hand : List Tile) : List Nat :=
  (sortedHand hand).map Tile.toNormalCode

/-- The `tileCounts` map of `findWinningForms`, as an association list in
key-insertion order: distinct normal codes in order of first occurrence in
the sorted hand, each with its total count. -/
def countsList (hand : List Tile) : List (Nat × Nat) :=
  (firstOccs (codesOfHand hand)).map fun c => (c, (codesOfHand hand).count c)

/-- Embeds `counts.get(code)`: `0` stands for both a zero count and a missing key
(JavaScript `undefined > 0` is false, like `0 > 0`). -/
def getCount (l : List (Nat × Nat)) (c : Nat) : Nat :=
  match l.find? fun q => q.1 == c with
  | some q => q.2
  | none => 0

/-- Embeds `counts.set(code, v)` on a key already present: update in place, keeping
the key order. -/
def setCount (l : List (Nat × Nat)) (c v : Nat) : List (Nat × Nat) :=
  l.map fun q => if q.1 = c then (q.1, v) else q

/-- Embeds `Judge._findMentsu`: find the first key with a nonzero count in map
order; if none is left the decomposition succeeded.  Otherwise try consuming
a triplet of that kind, then (for a numeral kind of rank below 8 —
`firstTileCode[0] !== 'z' && firstTileCode[0] < '8'`, i.e. code below 100
with `code / 4 < 8`) a run `code, code + 4, code + 8` (rank `v`, `v+1`,
`v+2` in the same suit), backtracking on failure.  The JavaScript recursion
consumes three tiles per step; `fuel` is an explicit upper bound on the
recursion depth (the initial call passes more fuel than tiles, so the
fuel-exhaustion branch is unreachable). -/
def findMentsu : Nat → List (Nat × Nat) → Bool
  | 0, _ => false
  | fuel + 1, l =>
    match l.find? fun q => 0 < q.2 with
    | none => true
    | some (c, cnt) =>
      (if 3 ≤ cnt then findMentsu fuel (setCount l c (cnt - 3)) else false)
      || (if c < 100 ∧ c / 4 < 8 then
            if 0 < getCount l (c + 4) ∧ 0 < getCount l (c + 8) then
              findMentsu fuel
                (setCount (setCount (setCount l c (cnt - 1))
                    (c + 4) (getCount l (c + 4) - 1))
                  (c + 8) (getCount l (c + 8) - 1))
            else false
          else false)

/-- The `pairCandidates` of `findWinningForms`: the keys with count at least
2, in map order. -/
def pairCandidates (tc : List (Nat × Nat)) : List Nat :=
  (tc.filter fun q => 2 ≤ q.2).map fun q => q.1

/-- Total number of tiles in a count table (used to size the fuel). -/
def sumCounts (tc : List (Nat × Nat)) : Nat :=
  (tc.map fun q => q.2).sum

/-- Embeds `Judge.findWinningForms` (its `isNormalForm` result): for each head
candidate in map order, remove the pair and run `_findMentsu` on the
remaining counts, short-circuiting on the first success. -/
def findWinningForms (hand : List Tile) : Bool :=
  let tc := countsList hand
  (pairCandidates tc).any fun c =>
    findMentsu (sumCounts tc + 1) (setCount tc c (getCount tc c - 2))

/-- Embeds `Judge.isChiitoitsu`: a 14-tile hand (the redundant evenness check
included) whose count map has exactly 7 keys, each with count exactly 2. -/
def isChiitoitsu (hand : List Tile) : Bool :=
  if hand.length ≠ 14 ∨ hand.length % 2 ≠ 0 then false
  else
    let codes := hand.map Tile.toNormalCode
    let keys := firstOccs codes
    keys.length == 7 && keys.all fun c => codes.count c == 2

/-- Validity of a kind pair (mirrors `Tile.valid` on `Tile.kind`). -/
def validKind (k : Suit × Nat) : Prop :=
  if k.1 = Suit.z then 1 ≤ k.2 ∧ k.2 ≤ 7 else 1 ≤ k.2 ∧ k.2 ≤ 9

/-- The claim's description of a seven-pairs hand, at the level of
(suit, rank) kinds: 14 tiles forming exactly 7 distinct kinds with exactly
2 tiles of each kind. -/
def sevenPairsKinds (hand : List Tile) : Prop :=
  hand.length = 14 ∧ (firstOccs (hand.map Tile.kind)).length = 7 ∧
    ∀ k ∈ firstOccs (hand.map Tile.kind), (hand.map Tile.kind).count k = 2

instance (hand : List Tile) : Decidable (sevenPairsKinds hand) := by
  unfold sevenPairsKinds; infer_instance

/-! ## Theorems -/

theorem toNormalCode_eq_codeOfKind (t : Tile) : t.toNormalCode = codeOfKind t.kind := rfl

/-! ### Claims C6, C3, C4 -/

/-- Claim C6 — For every non-overridden hand (not seven pairs, not pinfu
self-draw), the final fu value computed by `Scorer.calculateFu` is the raw
total rounded up to the next multiple of 10 with a floor of 30; any raw total
strictly between 20 and 30 yields 30, a raw total of 33 yields 40, and 30
stays 30. -/
theorem claim_c6_fu_rounding :
    (∀ (nakiLen : Nat) (isRon isPinfu : Bool), (isPinfu && !isRon) = false →
      calculateFu nakiLen isRon isPinfu false
        = max 30 (((rawFu nakiLen isRon isPinfu) + 9) / 10 * 10)) ∧
    (∀ raw : Nat, 20 < raw → raw < 30 → roundFu raw = 30) ∧
    roundFu 33 = 40 ∧ roundFu 30 = 30 := by
  have hround : ∀ raw : Nat, roundFu raw = max 30 ((raw + 9) / 10 * 10) := by
    intro raw
    unfold roundFu
    split <;> omega
  refine ⟨?_, ?_, by decide, by decide⟩
  · intro nakiLen isRon isPinfu h
    have : calculateFu nakiLen isRon isPinfu false = roundFu (rawFu nakiLen isRon isPinfu) := by
      unfold calculateFu
      rcases isPinfu with _ | _ <;> rcases isRon with _ | _ <;> simp_all
    rw [this, hround]
  · intro raw h1 h2
    rw [hround]
    omega

/-- Witness for C6: a concealed-ron hand with no meld fu has raw total
20 + 10 + 2 = 32, rounded to 40; raw totals 25 and 33 round to 30 and 40. -/
theorem claim_c6_fu_rounding_witness :
    calculateFu 0 true false false = max 30 ((rawFu 0 true false + 9) / 10 * 10) ∧
    roundFu 25 = 30 ∧ roundFu 33 = 40 := by
  refine ⟨claim_c6_fu_rounding.1 0 true false (by decide),
          claim_c6_fu_rounding.2.1 25 (by decide) (by decide),
          claim_c6_fu_rounding.2.2.1⟩

/-- Claim C3 — the table has no entry for (fu 40, han 4), yet `lookupScore`
returns `{ score: 0, tsumoBase: 0 }` for both ron and self-draw instead of
signalling an error: the lookup silently defaults to zero points, violating
the claim.  (The fall-through line is commented `予期せぬエラーまたはデータ不足`
— "unexpected error or missing data" — but still returns zero.) -/
theorem claim_c3_silent_zero_on_missing_entry :
    scoreChildEntry 40 4 = none ∧
    lookupScoreChild 40 4 true = { score := 0, tsumoBase := 0 } ∧
    lookupScoreChild 40 4 false = { score := 0, tsumoBase := 0 } := by
  refine ⟨rfl, rfl, rfl⟩

/-- Claim C4 — at (fu 30, han 2) the child row is `[500, 1000, 2000]`
(non-dealer payer 500, dealer payer 1000, ron 2000).  On a non-dealer
self-draw the two actual payers at this 3-seat table pay 500 + 1000 = 1500,
but `lookupScore` returns `score = 500 * 4 = 2000`, the conventional
four-payer multiple: the claim fails on the code. -/
theorem claim_c4_four_payer_multiple :
    scoreChildEntry 30 2 = some [500, 1000, 2000] ∧
    lookupScoreChild 30 2 false = { score := 2000, tsumoBase := 500 } ∧
    500 + 1000 ≠ 2000 := by
  refine ⟨rfl, rfl, by decide⟩

/-- Theorem: `Wall.build` never reads the configuration: every lookup key is
rank-first (`"5p"`) while the `redRules` object's keys are suit-first
(`"p5"`), so every lookup misses and the `|| 1` / `|| 0` defaults always
apply. -/
theorem build_ignores_redRules (rr : RedRules) : Wall.build rr = Wall.build defaultRedRules :=
  rfl

/-- Claim C2 — `Wall.build` always produces the same 108-tile set regardless of
the configuration: the `redRules[tileCode]` lookup key is rank-first (`"5p"`)
but the object's keys are suit-first (`"p5"`), so every configured count is
silently ignored and the defaults (one red five in pinzu and souzu, zero
elsewhere) always apply.  The per-kind totals are 4 and the red counts stay
at most 4, but a configuration requesting two red 5p still yields one red 5p:
the "equal to the configured count" part of the claim fails on the code. -/
theorem claim_c2_red_rules_key_mismatch :
    (∀ rr : RedRules, Wall.build rr = Wall.build defaultRedRules) ∧
    (Wall.build defaultRedRules).length = 108 ∧
    ((Wall.build defaultRedRules).map Tile.kind).all
      (fun k => decide
        (((Wall.build defaultRedRules).filter (fun t => decide (t.kind = k))).length = 4)) = true ∧
    ((Wall.build defaultRedRules).map Tile.kind).all
      (fun k => decide
        (((Wall.build defaultRedRules).filter
            (fun t => decide (t.kind = k) && t.isRed)).length ≤ 4)) = true ∧
    RedRules.p5 ⟨0, 0, 2, 1, 0, 0⟩ = 2 ∧
    ((Wall.build ⟨0, 0, 2, 1, 0, 0⟩).filter
       (fun t => decide (t.kind = (Suit.p, 5)) && t.isRed)).length = 1 := by
  refine ⟨build_ignores_redRules, by decide, by decide, by decide, rfl, by decide⟩

/-- Claim C1, counterexample — with three seats where both non-discarding seats
hold a valid ron claim on seat 0's discard, `startCallPhase` computes the full
candidate list `[1, 2]` but commits only seat 1; seat 2's simultaneous claim
is dropped, contradicting the claim that every claiming seat wins. -/
theorem claim_c1_counterexample :
    ronCandidates (fun q => q != 0) [0, 1, 2] 0 = [1, 2] ∧
    callPhaseRonWinners (fun q => q != 0) [0, 1, 2] 0 = [1] ∧
    2 ∈ ronCandidates (fun q => q != 0) [0, 1, 2] 0 ∧
    2 ∉ callPhaseRonWinners (fun q => q != 0) [0, 1, 2] 0 := by
  refine ⟨rfl, rfl, by decide, by decide⟩

/-- Claim C1, amended — the call phase does evaluate every seat before
committing (the candidate list is computed in full by `filter`), but then
commits only the first candidate in seat order, dropping every later
simultaneous ron claim; moreover the shipped `canRon` predicate grants no
claim at all. -/
theorem claim_c1_amended_first_candidate_only :
    (∀ (canRonP : Nat → Bool) (players : List Nat) (src : Nat),
      callPhaseRonWinners canRonP players src = (ronCandidates canRonP players src).take 1) ∧
    (∀ (player : Nat) (tile : Tile), gsCanRon player tile = false) := by
  refine ⟨fun canRonP players src => ?_, fun _ _ => rfl⟩
  unfold callPhaseRonWinners
  cases ronCandidates canRonP players src <;> rfl

/-- Claim C5 — furiten is not monotonic in the code: a riichi player who
discarded 1p (code 5) is judged furiten when checked against a hand completed
by 1p, and immediately afterwards judged *not* furiten when checked against
the same 13 tiles completed by 2p — with no intervening discard or hand
change.  (A non-riichi player is never judged furiten at all, also contrary
to the claim.) -/
theorem claim_c5_furiten_reverts :
    isPermanentFuriten ⟨true, [5]⟩
      ([⟨Suit.z, 1, false, 0⟩, ⟨Suit.z, 1, false, 1⟩, ⟨Suit.z, 1, false, 2⟩,
        ⟨Suit.z, 2, false, 3⟩, ⟨Suit.z, 2, false, 4⟩, ⟨Suit.z, 2, false, 5⟩,
        ⟨Suit.z, 3, false, 6⟩, ⟨Suit.z, 3, false, 7⟩, ⟨Suit.z, 3, false, 8⟩,
        ⟨Suit.z, 4, false, 9⟩, ⟨Suit.z, 4, false, 10⟩, ⟨Suit.z, 4, false, 11⟩,
        ⟨Suit.z, 5, false, 12⟩] ++ [⟨Suit.p, 1, false, 13⟩]) = true ∧
    isPermanentFuriten ⟨true, [5]⟩
      ([⟨Suit.z, 1, false, 0⟩, ⟨Suit.z, 1, false, 1⟩, ⟨Suit.z, 1, false, 2⟩,
        ⟨Suit.z, 2, false, 3⟩, ⟨Suit.z, 2, false, 4⟩, ⟨Suit.z, 2, false, 5⟩,
        ⟨Suit.z, 3, false, 6⟩, ⟨Suit.z, 3, false, 7⟩, ⟨Suit.z, 3, false, 8⟩,
        ⟨Suit.z, 4, false, 9⟩, ⟨Suit.z, 4, false, 10⟩, ⟨Suit.z, 4, false, 11⟩,
        ⟨Suit.z, 5, false, 12⟩] ++ [⟨Suit.p, 2, false, 13⟩]) = false ∧
    isPermanentFuriten ⟨false, [5]⟩
      ([⟨Suit.z, 1, false, 0⟩] ++ [⟨Suit.p, 1, false, 13⟩]) = false := by
  refine ⟨by decide, by decide, by decide⟩

/-- Theorem: `gsCheckGameOver` never touches the player array. -/
theorem gsCheckGameOver_players (g : GameStateRec) : (gsCheckGameOver g).players = g.players := by
  unfold gsCheckGameOver
  split <;> rfl

/-- What `GameState.advanceRound` does to the player array: nothing on a
dealer repeat, the rotation otherwise. -/
theorem gsAdvanceRound_players (g : GameStateRec) (renchan : Bool) :
    (gsAdvanceRound g renchan).players =
      if renchan then g.players else setWinds (rotateParents g.players) := by
  cases renchan
  · simp only [gsAdvanceRound, gsCheckGameOver_players, Bool.false_eq_true, if_false]
    split <;> rfl
  · simp only [gsAdvanceRound, gsCheckGameOver_players, if_true]

/-- What `Cycler._advanceRound` does to the player array: nothing when the
advance runs past round 4 of the south wind (the early game-over return),
the rotation otherwise. -/
theorem cyclerAdvanceRound_players (s : CyclerState) :
    (cyclerAdvanceRound s).players =
      if s.currentRound + 1 > 4 ∧ s.baKaze = BaKaze.south then s.players
      else setWinds (rotateParents s.players) := by
  unfold cyclerAdvanceRound
  by_cases h4 : s.currentRound + 1 > 4
  · cases hb : s.baKaze <;> simp [h4, hb]
  · simp [h4]

/-- What `Cycler.handleRoundEnd` does to the player array. -/
theorem handleRoundEnd_players (s : CyclerState) (agari tempai : Bool) :
    (handleRoundEnd s agari tempai).players =
      if agari || tempai then s.players
      else if s.currentRound + 1 > 4 ∧ s.baKaze = BaKaze.south then s.players
      else setWinds (rotateParents s.players) := by
  unfold handleRoundEnd
  cases hr : agari || tempai
  · simp only [Bool.false_eq_true, if_false]
    rw [cyclerAdvanceRound_players]
  · rfl

/-- The seat rotation shared by `Cycler._advanceRound` and
`GameState.advanceRound` preserves the seat invariant and permutes (never
adds or removes) the player identities. -/
theorem rotateParents_preserves_seatInv (ps : List SeatPlayer) (h : seatInv ps) :
    seatInv (setWinds (rotateParents ps)) ∧
    ((setWinds (rotateParents ps)).map SeatPlayer.pid).Perm (ps.map SeatPlayer.pid) := by
  obtain ⟨hlen, hhead, hone⟩ := h
  match ps, hlen with
  | [a, b, c], _ =>
    simp only [List.head?, Option.map_some] at hhead
    have ha : a.isParent = true := by exact Option.some.inj hhead
    simp only [exactlyOneParent, List.filter, ha] at hone
    cases hb : b.isParent <;> cases hc : c.isParent <;> simp [hb, hc] at hone
    constructor
    · refine ⟨by simp [rotateParents, setWinds, setWindsFrom], ?_, ?_⟩
      · simp [rotateParents, setWinds, setWindsFrom]
      · simp [rotateParents, setWinds, setWindsFrom, exactlyOneParent, List.filter, hb, hc]
    · simp only [rotateParents, setWinds, setWindsFrom, List.map]
      simpa using @List.perm_append_comm _ [b.pid, c.pid] [a.pid]

/-- Claim C10 — `initPlayers` establishes the seat invariant (three players,
exactly one dealer, at the front), and both round transitions —
`GameState.advanceRound` and `Cycler.handleRoundEnd` — preserve it while
only permuting the player identities (never adding or removing a player). -/
theorem claim_c10_dealer_invariant :
    seatInv gsInitPlayers ∧
    (∀ (g : GameStateRec) (renchan : Bool), seatInv g.players →
      seatInv (gsAdvanceRound g renchan).players ∧
      ((gsAdvanceRound g renchan).players.map SeatPlayer.pid).Perm
        (g.players.map SeatPlayer.pid)) ∧
    (∀ (s : CyclerState) (agari tempai : Bool), seatInv s.players →
      seatInv (handleRoundEnd s agari tempai).players ∧
      ((handleRoundEnd s agari tempai).players.map SeatPlayer.pid).Perm
        (s.players.map SeatPlayer.pid)) := by
  refine ⟨by decide, ?_, ?_⟩
  · intro g renchan h
    rw [gsAdvanceRound_players]
    cases renchan
    · simp only [Bool.false_eq_true, if_false]
      exact rotateParents_preserves_seatInv g.players h
    · exact ⟨h, List.Perm.refl _⟩
  · intro s agari tempai h
    rw [handleRoundEnd_players]
    cases hr : agari || tempai
    · simp only [Bool.false_eq_true, if_false]
      by_cases hend : s.currentRound + 1 > 4 ∧ s.baKaze = BaKaze.south
      · rw [if_pos hend]
        exact ⟨h, List.Perm.refl _⟩
      · rw [if_neg hend]
        exact rotateParents_preserves_seatInv s.players h
    · exact ⟨h, List.Perm.refl _⟩

/-- The witness for C10: the transition lemmas applied at the initial state. -/
theorem claim_c10_dealer_invariant_witness :
    seatInv (gsAdvanceRound ⟨gsInitPlayers, 1, 0, BaKaze.east, false, true⟩ false).players ∧
    seatInv (handleRoundEnd ⟨gsInitPlayers, 1, BaKaze.east, 0, false⟩ false false).players :=
  ⟨(claim_c10_dealer_invariant.2.1 ⟨gsInitPlayers, 1, 0, BaKaze.east, false, true⟩ false
      claim_c10_dealer_invariant.1).1,
   (claim_c10_dealer_invariant.2.2 ⟨gsInitPlayers, 1, BaKaze.east, 0, false⟩ false false
      claim_c10_dealer_invariant.1).1⟩

/-- Claim C8, counterexample — at round 4 of the south wind with the dealer
neither winning nor ready, `Cycler.handleRoundEnd` resets the bonus counter
and advances the round number, but returns before the seat rotation (the
game-over early return in `_advanceRound`): the players are left untouched
even though the dealer does not repeat, contradicting the claim's
"otherwise seats rotate by one position". -/
theorem claim_c8_counterexample :
    handleRoundEnd
        ⟨[⟨0, true, 0⟩, ⟨1, false, 1⟩, ⟨2, false, 2⟩], 4, BaKaze.south, 2, false⟩
        false false
      = ⟨[⟨0, true, 0⟩, ⟨1, false, 1⟩, ⟨2, false, 2⟩], 5, BaKaze.south, 0, true⟩ ∧
    setWinds (rotateParents [⟨0, true, 0⟩, ⟨1, false, 1⟩, ⟨2, false, 2⟩])
      ≠ [⟨0, true, 0⟩, ⟨1, false, 1⟩, ⟨2, false, 2⟩] := by
  refine ⟨by decide, by decide⟩

/-- Claim C8, amended — the dealer repeats (no rotation, bonus counter +1) iff
the dealer won or was ready at the exhaustive draw.  Otherwise the bonus
counter resets and the round advances: within rounds 1–3 the seats rotate;
after round 4 of the first wind the seats rotate and the prevailing wind
flips to the second wind with the round reset to 1; after round 4 of the
second wind the game-over flag is set and the seats do *not* rotate. -/
theorem claim_c8_amended_round_cycle :
    ∀ (s : CyclerState) (agari tempai : Bool),
      1 ≤ s.currentRound → s.currentRound ≤ 4 →
      ((agari = true ∨ tempai = true) →
        handleRoundEnd s agari tempai = { s with currentHonba := s.currentHonba + 1 }) ∧
      (agari = false → tempai = false →
        (s.currentRound < 4 →
          handleRoundEnd s agari tempai =
            { s with currentHonba := 0, currentRound := s.currentRound + 1,
                     players := setWinds (rotateParents s.players) }) ∧
        (s.currentRound = 4 → s.baKaze = BaKaze.east →
          handleRoundEnd s agari tempai =
            { s with currentHonba := 0, currentRound := 1, baKaze := BaKaze.south,
                     players := setWinds (rotateParents s.players) }) ∧
        (s.currentRound = 4 → s.baKaze = BaKaze.south →
          handleRoundEnd s agari tempai =
            { s with currentHonba := 0, currentRound := 5, gameOverFlag := true })) := by
  intro s agari tempai h1 h4
  constructor
  · rintro (rfl | rfl) <;> simp [handleRoundEnd]
  · rintro rfl rfl
    simp only [handleRoundEnd, Bool.or_self, Bool.false_eq_true, if_false]
    refine ⟨?_, ?_, ?_⟩
    · intro hlt
      unfold cyclerAdvanceRound
      have hno : ¬ (s.currentRound + 1 > 4) := by omega
      simp [hno]
    · intro he hb
      unfold cyclerAdvanceRound
      simp [he, hb]
    · intro he hb
      unfold cyclerAdvanceRound
      simp [he, hb]

/-- Witness for C8 (amended): a concrete east-round-2 state where the dealer
does not repeat: the bonus counter resets, the round advances to 3, and the
seats rotate. -/
theorem claim_c8_amended_round_cycle_witness :
    handleRoundEnd ⟨[⟨0, true, 0⟩, ⟨1, false, 1⟩, ⟨2, false, 2⟩], 2, BaKaze.east, 1, false⟩
        false false
      = ⟨setWinds (rotateParents [⟨0, true, 0⟩, ⟨1, false, 1⟩, ⟨2, false, 2⟩]),
         3, BaKaze.east, 0, false⟩ :=
  ((claim_c8_amended_round_cycle
      ⟨[⟨0, true, 0⟩, ⟨1, false, 1⟩, ⟨2, false, 2⟩], 2, BaKaze.east, 1, false⟩
      false false (by decide) (by decide)).2 rfl rfl).1 (by decide)

/-- The full sort key is the normal code with the red bit in the last place:
key order is monotone in the normal code. -/
theorem nc_le_of_fullKey_le {a b : Tile} (h : tileLe a b) :
    a.toNormalCode ≤ b.toNormalCode := by
  unfold tileLe Tile.fullKey at h
  split at h <;> split at h <;> omega

/-- Two tiles whose full keys compare strictly the other way around than
their normal codes must share the normal code (they differ only in the red
bit). -/
theorem nc_eq_of_not_fullKey_le {a b : Tile} (h : ¬ tileLe a b)
    (h2 : a.toNormalCode ≤ b.toNormalCode) : a.toNormalCode = b.toNormalCode := by
  unfold tileLe Tile.fullKey at h
  split at h <;> split at h <;> omega

/-- Inserting a tile whose normal code is a lower bound of the list: the
normal-code image gains the new code at the front, wherever in its block of
equal codes the tile lands. -/
theorem map_nc_orderedInsert_front (a : Tile) (l : List Tile)
    (hall : ∀ x ∈ l, a.toNormalCode ≤ x.toNormalCode) :
    (List.orderedInsert tileLe a l).map Tile.toNormalCode
      = a.toNormalCode :: l.map Tile.toNormalCode := by
  induction l with
  | nil => rfl
  | cons b l ih =>
    by_cases hab : tileLe a b
    · simp [List.orderedInsert, hab]
    · have hba : b.toNormalCode = a.toNormalCode := by
        have h2 : a.toNormalCode ≤ b.toNormalCode := hall b (List.mem_cons_self b l)
        exact (nc_eq_of_not_fullKey_le hab h2).symm
      have ih2 := ih fun x hx => hall x (List.mem_cons_of_mem b hx)
      simp [List.orderedInsert, hab, ih2, hba]

/-- The normal-code image of an ordered insert into a key-sorted tile list
is the ordered insert of the normal code. -/
theorem map_nc_orderedInsert (a : Tile) (l : List Tile) (hs : List.Sorted tileLe l) :
    (List.orderedInsert tileLe a l).map Tile.toNormalCode
      = List.orderedInsert (· ≤ ·) a.toNormalCode (l.map Tile.toNormalCode) := by
  induction l with
  | nil => rfl
  | cons b l ih =>
    rw [List.sorted_cons] at hs
    obtain ⟨hb, hl⟩ := hs
    by_cases hab : tileLe a b
    · have h2 : a.toNormalCode ≤ b.toNormalCode := nc_le_of_fullKey_le hab
      simp [List.orderedInsert, hab, h2]
    · by_cases h2 : a.toNormalCode ≤ b.toNormalCode
      · have heq : a.toNormalCode = b.toNormalCode := nc_eq_of_not_fullKey_le hab h2
        have hfront : ∀ x ∈ l, a.toNormalCode ≤ x.toNormalCode := by
          intro x hx
          rw [heq]
          exact nc_le_of_fullKey_le (hb x hx)
        simp [List.orderedInsert, hab, h2, map_nc_orderedInsert_front a l hfront, heq]
      · simp [List.orderedInsert, hab, h2, ih hl]

/-- The sorted code sequence of a hand is the sorted image of its codes: the
red bits and instance ids of the tiles do not influence it beyond their
kinds. -/
theorem codesOfHand_eq_sorted (hand : List Tile) :
    codesOfHand hand = List.insertionSort (· ≤ ·) (hand.map Tile.toNormalCode) := by
  unfold codesOfHand sortedHand
  induction hand with
  | nil => rfl
  | cons a h ih =>
    simp only [List.insertionSort, List.map]
    rw [map_nc_orderedInsert a _ (List.sorted_insertionSort tileLe h), ih]

/-- Hands with the same multiset of normal codes have identical sorted code
sequences. -/
theorem codesOfHand_perm_eq {h1 h2 : List Tile}
    (hperm : (h1.map Tile.toNormalCode).Perm (h2.map Tile.toNormalCode)) :
    codesOfHand h1 = codesOfHand h2 := by
  rw [codesOfHand_eq_sorted, codesOfHand_eq_sorted]
  exact List.eq_of_perm_of_sorted
    (((List.perm_insertionSort _ _).trans hperm).trans (List.perm_insertionSort _ _).symm)
    (List.sorted_insertionSort _ _) (List.sorted_insertionSort _ _)

/-- Claim C9 — winning-form classification depends only on the (suit, rank)
kind multiset of the hand: two hands whose kind multisets agree (instance
ids and red-bonus flags free) are classified identically by
`Judge.findWinningForms`. -/
theorem claim_c9_kind_multiset_invariance (h1 h2 : List Tile)
    (hperm : (h1.map Tile.kind).Perm (h2.map Tile.kind)) :
    findWinningForms h1 = findWinningForms h2 := by
  have hcodes : (h1.map Tile.toNormalCode).Perm (h2.map Tile.toNormalCode) := by
    have h := hperm.map codeOfKind
    rw [List.map_map, List.map_map] at h
    exact h
  have hc : countsList h1 = countsList h2 := by
    unfold countsList
    rw [codesOfHand_perm_eq hcodes]
  unfold findWinningForms
  rw [hc]

/-- Witness for C9: the same winning shape (three pinzu triplets 5-6-7, a
z1 triplet and a z2 pair) built once with a red five and once with a normal
five of another instance id is classified identically (and as winning). -/
theorem claim_c9_kind_multiset_invariance_witness :
    findWinningForms
        [⟨Suit.p, 5, true, 10⟩, ⟨Suit.p, 5, false, 11⟩, ⟨Suit.p, 5, false, 12⟩,
         ⟨Suit.p, 6, false, 13⟩, ⟨Suit.p, 6, false, 14⟩, ⟨Suit.p, 6, false, 15⟩,
         ⟨Suit.p, 7, false, 16⟩, ⟨Suit.p, 7, false, 17⟩, ⟨Suit.p, 7, false, 18⟩,
         ⟨Suit.z, 1, false, 19⟩, ⟨Suit.z, 1, false, 20⟩, ⟨Suit.z, 1, false, 21⟩,
         ⟨Suit.z, 2, false, 22⟩, ⟨Suit.z, 2, false, 23⟩]
      = findWinningForms
        [⟨Suit.p, 5, false, 99⟩, ⟨Suit.p, 5, false, 11⟩, ⟨Suit.p, 5, false, 12⟩,
         ⟨Suit.p, 6, false, 13⟩, ⟨Suit.p, 6, false, 14⟩, ⟨Suit.p, 6, false, 15⟩,
         ⟨Suit.p, 7, false, 16⟩, ⟨Suit.p, 7, false, 17⟩, ⟨Suit.p, 7, false, 18⟩,
         ⟨Suit.z, 1, false, 19⟩, ⟨Suit.z, 1, false, 20⟩, ⟨Suit.z, 1, false, 21⟩,
         ⟨Suit.z, 2, false, 22⟩, ⟨Suit.z, 2, false, 23⟩] ∧
    findWinningForms
        [⟨Suit.p, 5, true, 10⟩, ⟨Suit.p, 5, false, 11⟩, ⟨Suit.p, 5, false, 12⟩,
         ⟨Suit.p, 6, false, 13⟩, ⟨Suit.p, 6, false, 14⟩, ⟨Suit.p, 6, false, 15⟩,
         ⟨Suit.p, 7, false, 16⟩, ⟨Suit.p, 7, false, 17⟩, ⟨Suit.p, 7, false, 18⟩,
         ⟨Suit.z, 1, false, 19⟩, ⟨Suit.z, 1, false, 20⟩, ⟨Suit.z, 1, false, 21⟩,
         ⟨Suit.z, 2, false, 22⟩, ⟨Suit.z, 2, false, 23⟩] = true :=
  ⟨claim_c9_kind_multiset_invariance _ _ (by decide), by decide⟩

/-- On the kinds the program creates, the numeric code is injective: numeral
codes lie below 100 and determine rank and suit index, honor codes determine
the rank. -/
theorem codeOfKind_inj {k k' : Suit × Nat} (hk : validKind k) (hk' : validKind k')
    (h : codeOfKind k = codeOfKind k') : k = k' := by
  obtain ⟨s1, v1⟩ := k
  obtain ⟨s2, v2⟩ := k'
  unfold validKind at hk hk'
  unfold codeOfKind at h
  cases s1 <;> cases s2 <;> simp [Suit.idx] at hk hk' h ⊢ <;> omega

/-- Every element of `firstOccsAux l seen` comes from `l`. -/
theorem mem_of_mem_firstOccsAux {α : Type} [DecidableEq α] {x : α} :
    ∀ {l seen : List α}, x ∈ firstOccsAux l seen → x ∈ l := by
  intro l
  induction l with
  | nil => intro seen h; exact absurd h (List.not_mem_nil x)
  | cons a l ih =>
    intro seen h
    unfold firstOccsAux at h
    by_cases hmem : a ∈ seen
    · rw [if_pos hmem] at h
      exact List.mem_cons_of_mem a (ih h)
    · rw [if_neg hmem] at h
      rcases List.mem_cons.mp h with rfl | h2
      · exact List.mem_cons_self x l
      · exact List.mem_cons_of_mem a (ih h2)

/-- Every element of `firstOccs l` comes from `l`. -/
theorem mem_of_mem_firstOccs {α : Type} [DecidableEq α] {x : α} {l : List α}
    (h : x ∈ firstOccs l) : x ∈ l :=
  mem_of_mem_firstOccsAux h

/-- Helper: `firstOccsAux` commutes with mapping an injective-on-the-list function. -/
theorem firstOccsAux_map {α β : Type} [DecidableEq α] [DecidableEq β] (f : α → β) :
    ∀ (l seen : List α), (∀ x ∈ l, ∀ y, (y ∈ l ∨ y ∈ seen) → f x = f y → x = y) →
      firstOccsAux (l.map f) (seen.map f) = (firstOccsAux l seen).map f := by
  intro l
  induction l with
  | nil => intro seen _; rfl
  | cons a l ih =>
    intro seen hinj
    simp only [List.map, firstOccsAux]
    by_cases hmem : a ∈ seen
    · rw [if_pos (List.mem_map_of_mem f hmem), if_pos hmem]
      refine ih seen fun x hx y hy hf => ?_
      refine hinj x (List.mem_cons_of_mem a hx) y ?_ hf
      rcases hy with hy | hy
      · exact Or.inl (List.mem_cons_of_mem a hy)
      · exact Or.inr hy
    · have hfmem : f a ∉ seen.map f := by
        intro hf
        obtain ⟨y, hy, hfy⟩ := List.mem_map.mp hf
        have : a = y := hinj a (List.mem_cons_self a l) y (Or.inr hy) hfy.symm
        exact hmem (this ▸ hy)
      rw [if_neg hfmem, if_neg hmem]
      simp only [List.map]
      have : (a :: seen).map f = f a :: seen.map f := rfl
      rw [← this]
      rw [ih (a :: seen) ?_]
      intro x hx y hy hf
      refine hinj x (List.mem_cons_of_mem a hx) y ?_ hf
      rcases hy with hy | hy
      · exact Or.inl (List.mem_cons_of_mem a hy)
      · rcases List.mem_cons.mp hy with rfl | hy2
        · exact Or.inl (List.mem_cons_self y l)
        · exact Or.inr hy2

/-- Helper: `firstOccs` commutes with mapping an injective-on-the-list function. -/
theorem firstOccs_map_of_inj {α β : Type} [DecidableEq α] [DecidableEq β] (f : α → β)
    (l : List α) (hinj : ∀ x ∈ l, ∀ y ∈ l, f x = f y → x = y) :
    firstOccs (l.map f) = (firstOccs l).map f :=
  firstOccsAux_map f l [] fun x hx y hy hf =>
    match hy with
    | Or.inl h2 => hinj x hx y h2 hf
    | Or.inr h2 => absurd h2 (List.not_mem_nil y)

/-- Counting commutes with mapping a function injective at the counted
element. -/
theorem count_map_of_inj {α β : Type} [BEq α] [LawfulBEq α] [BEq β] [LawfulBEq β] (f : α → β) (a : α) :
    ∀ l : List α, (∀ x ∈ l, f x = f a → x = a) → (l.map f).count (f a) = l.count a := by
  intro l
  induction l with
  | nil => intro _; rfl
  | cons x l ih =>
    intro hinj
    have ihl := ih fun y hy => hinj y (List.mem_cons_of_mem x hy)
    by_cases hx : f x = f a
    · have hxa : x = a := hinj x (List.mem_cons_self x l) hx
      subst hxa
      simp [List.count_cons, ihl]
    · have hx2 : f a ≠ f x := fun he => hx he.symm
      have hxa : a ≠ x := fun he => hx2 (he ▸ rfl)
      simp [List.count_cons, ihl, hx2, hxa]

/-- Claim C7 — for hands of tiles the program can create, `Judge.isChiitoitsu`
returns true exactly for the 14-tile hands with 7 distinct kinds, 2 tiles
of each kind (and false for every other tile multiset), and with the
seven-pairs flag set `Scorer.calculateFu` always computes 25 fu. -/
theorem claim_c7_seven_pairs :
    (∀ hand : List Tile, (∀ t ∈ hand, t.valid) →
      (isChiitoitsu hand = true ↔ sevenPairsKinds hand)) ∧
    (∀ (nakiLen : Nat) (isRon isPinfu : Bool), calculateFu nakiLen isRon isPinfu true = 25) := by
  refine ⟨?_, fun _ _ _ => rfl⟩
  intro hand hv
  have hkv : ∀ k ∈ hand.map Tile.kind, validKind k := by
    intro k hk
    obtain ⟨t, ht, rfl⟩ := List.mem_map.mp hk
    exact hv t ht
  have hinj : ∀ x ∈ hand.map Tile.kind, ∀ y ∈ hand.map Tile.kind,
      codeOfKind x = codeOfKind y → x = y :=
    fun x hx y hy h => codeOfKind_inj (hkv x hx) (hkv y hy) h
  have hmap : hand.map Tile.toNormalCode = (hand.map Tile.kind).map codeOfKind := by
    rw [List.map_map]
    rfl
  have hkeys : firstOccs (hand.map Tile.toNormalCode)
      = (firstOccs (hand.map Tile.kind)).map codeOfKind := by
    rw [hmap, firstOccs_map_of_inj codeOfKind _ hinj]
  have hcnt : ∀ k ∈ firstOccs (hand.map Tile.kind),
      (hand.map Tile.toNormalCode).count (codeOfKind k) = (hand.map Tile.kind).count k := by
    intro k hk
    rw [hmap]
    exact count_map_of_inj codeOfKind k _
      fun x hx hfx => hinj x hx k (mem_of_mem_firstOccs hk) hfx
  constructor
  · intro h
    by_cases h14 : hand.length = 14
    case neg => simp [isChiitoitsu, h14] at h
    case pos =>
      have hmod : hand.length % 2 = 0 := by rw [h14]
      simp only [isChiitoitsu, h14, hmod, ne_eq, not_true_eq_false, not_false_eq_true,
        false_or, or_self, if_false, reduceIte, Bool.and_eq_true, beq_iff_eq,
        List.all_eq_true] at h
      obtain ⟨h7, h2⟩ := h
      refine ⟨h14, ?_, ?_⟩
      · have hlen := congrArg List.length hkeys
        rw [List.length_map] at hlen
        rw [← hlen]
        exact h7
      · intro k hk
        have hck : codeOfKind k ∈ firstOccs (hand.map Tile.toNormalCode) := by
          rw [hkeys]
          exact List.mem_map_of_mem _ hk
        have hc := h2 (codeOfKind k) hck
        rw [hcnt k hk] at hc
        exact hc
  · rintro ⟨h14, h7, h2⟩
    have hmod : hand.length % 2 = 0 := by rw [h14]
    simp only [isChiitoitsu, h14, hmod, ne_eq, not_true_eq_false, not_false_eq_true,
      false_or, or_self, if_false, reduceIte, Bool.and_eq_true, beq_iff_eq,
      List.all_eq_true]
    constructor
    · rw [hkeys, List.length_map]
      exact h7
    · intro c hc
      rw [hkeys] at hc
      obtain ⟨k, hk, rfl⟩ := List.mem_map.mp hc
      rw [hcnt k hk]
      exact h2 k hk

/-- Witness for C7: seven distinct kinds, two tiles each, satisfy
`isChiitoitsu` (and 25 fu under the seven-pairs flag). -/
theorem claim_c7_seven_pairs_witness :
    isChiitoitsu
        [⟨Suit.p, 1, false, 0⟩, ⟨Suit.p, 1, false, 1⟩, ⟨Suit.p, 2, false, 2⟩,
         ⟨Suit.p, 2, false, 3⟩, ⟨Suit.p, 3, false, 4⟩, ⟨Suit.p, 3, false, 5⟩,
         ⟨Suit.s, 5, true, 6⟩, ⟨Suit.s, 5, false, 7⟩, ⟨Suit.z, 1, false, 8⟩,
         ⟨Suit.z, 1, false, 9⟩, ⟨Suit.z, 2, false, 10⟩, ⟨Suit.z, 2, false, 11⟩,
         ⟨Suit.z, 3, false, 12⟩, ⟨Suit.z, 3, false, 13⟩] = true ∧
    calculateFu 0 false false true = 25 :=
  ⟨(claim_c7_seven_pairs.1 _ (by decide)).mpr (by decide),
   claim_c7_seven_pairs.2 0 false false⟩
